import Mathlib

/-!
Shallow embedding of the vanity-address core of the OnlyPump backend
(`src/main.rs`): the `VanityService` struct, its pool, the background
refill loop `generate_pool`, the parallel search batch
`generate_vanity_batch_fast`, and the address derivation
`Pubkey::create_with_seed` from the Solana SDK (sha256 of
base-bytes ++ seed-bytes ++ owner-bytes, rendered in base58).

Machine words are modelled as `Nat` reduced mod 2^32 where the source
computes on 32-bit words; byte strings are `List Nat` with each element
a byte value; Rust `String`s are `List Char`.
-/

namespace OnlyPump

/-! ## SHA-256 (the hash underlying `Pubkey::create_with_seed`) -/

/-- Reduce a natural number to a 32-bit word value. -/
def w32 (n : Nat) : Nat := n % 4294967296

/-- Right rotation of a 32-bit word by `k` bits. -/
def rotr32 (k x : Nat) : Nat := w32 (x >>> k ||| x <<< (32 - k))

/-- SHA-256 lowercase sigma 0. -/
def smallSigma0 (x : Nat) : Nat := rotr32 7 x ^^^ rotr32 18 x ^^^ (x >>> 3)

/-- SHA-256 lowercase sigma 1. -/
def smallSigma1 (x : Nat) : Nat := rotr32 17 x ^^^ rotr32 19 x ^^^ (x >>> 10)

/-- SHA-256 uppercase Sigma 0. -/
def bigSigma0 (x : Nat) : Nat := rotr32 2 x ^^^ rotr32 13 x ^^^ rotr32 22 x

/-- SHA-256 uppercase Sigma 1. -/
def bigSigma1 (x : Nat) : Nat := rotr32 6 x ^^^ rotr32 11 x ^^^ rotr32 25 x

/-- SHA-256 round constants (decimal values of the FIPS 180-4 table). -/
def K256 : List Nat :=
  [1116352408, 1899447441, 3049323471, 3921009573, 961987163,
   1508970993, 2453635748, 2870763221, 3624381080, 310598401,
   607225278, 1426881987, 1925078388, 2162078206, 2614888103,
   3248222580, 3835390401, 4022224774, 264347078, 604807628,
   770255983, 1249150122, 1555081692, 1996064986, 2554220882,
   2821834349, 2952996808, 3210313671, 3336571891, 3584528711,
   113926993, 338241895, 666307205, 773529912, 1294757372,
   1396182291, 1695183700, 1986661051, 2177026350, 2456956037,
   2730485921, 2820302411, 3259730800, 3345764771, 3516065817,
   3600352804, 4094571909, 275423344, 430227734, 506948616,
   659060556, 883997877, 958139571, 1322822218, 1537002063,
   1747873779, 1955562222, 2024104815, 2227730452, 2361852424,
   2428436474, 2756734187, 3204031479, 3329325298]

/-- SHA-256 initial hash value (decimal values of the FIPS 180-4 table). -/
def H256 : List Nat :=
  [1779033703, 3144134277, 1013904242, 2773480762,
   1359893119, 2600822924, 528734635, 1541459225]

/-- Big-endian bytes of a number, `len` bytes wide. -/
def toBytesBE (len n : Nat) : List Nat :=
  (List.range len).map (fun i => n / 256 ^ (len - 1 - i) % 256)

/-- Group a byte list into big-endian 32-bit words. -/
def bytesToWords : List Nat → List Nat
  | b0 :: b1 :: b2 :: b3 :: rest => (((b0 * 256 + b1) * 256 + b2) * 256 + b3) :: bytesToWords rest
  | _ => []

/-- One step of the SHA-256 message-schedule extension: append word `w[n]`
computed from `w[n-16], w[n-15], w[n-7], w[n-2]`. -/
def scheduleStep (w : Array Nat) (_i : Nat) : Array Nat :=
  let n := w.size
  w.push (w32 (w.getD (n - 16) 0 + smallSigma0 (w.getD (n - 15) 0) +
               w.getD (n - 7) 0 + smallSigma1 (w.getD (n - 2) 0)))

/-- Full 64-word message schedule of one 64-byte block. -/
def schedule (block : List Nat) : List Nat :=
  ((List.range 48).foldl scheduleStep (bytesToWords block).toArray).toList

/-- One SHA-256 compression round, on state (a,b,c,d,e,f,g,h), consuming a
(round-constant, schedule-word) pair. -/
def compressStep (st : Nat × Nat × Nat × Nat × Nat × Nat × Nat × Nat) (kw : Nat × Nat) :
    Nat × Nat × Nat × Nat × Nat × Nat × Nat × Nat :=
  match st, kw with
  | (a, b, c, d, e, f, g, h), (k, w) =>
    let t1 := w32 (h + bigSigma1 e + ((e &&& f) ^^^ ((e ^^^ 4294967295) &&& g)) + k + w)
    let t2 := w32 (bigSigma0 a + ((a &&& b) ^^^ (a &&& c) ^^^ (b &&& c)))
    (w32 (t1 + t2), a, b, c, w32 (d + t1), e, f, g)

/-- Process one 64-byte block, updating the 8-word hash value. -/
def processBlock (hv : List Nat) (block : List Nat) : List Nat :=
  let w := schedule block
  match (K256.zip w).foldl compressStep
      (hv.getD 0 0, hv.getD 1 0, hv.getD 2 0, hv.getD 3 0,
       hv.getD 4 0, hv.getD 5 0, hv.getD 6 0, hv.getD 7 0) with
  | (a, b, c, d, e, f, g, h) =>
    [w32 (hv.getD 0 0 + a), w32 (hv.getD 1 0 + b), w32 (hv.getD 2 0 + c), w32 (hv.getD 3 0 + d),
     w32 (hv.getD 4 0 + e), w32 (hv.getD 5 0 + f), w32 (hv.getD 6 0 + g), w32 (hv.getD 7 0 + h)]

/-- SHA-256 padding: append 0x80, zeros to 56 mod 64, then the 8-byte
big-endian bit length. -/
def padMessage (msg : List Nat) : List Nat :=
  msg ++ [128] ++ List.replicate ((119 - msg.length % 64) % 64) 0 ++ toBytesBE 8 (msg.length * 8)

/-- Split a byte list into 64-byte chunks, with structural fuel (one unit
per chunk; `l.length` units always suffice). -/
def chunks64Fuel : Nat → List Nat → List (List Nat)
  | 0, _ => []
  | _, [] => []
  | fuel + 1, b :: rest => (b :: rest).take 64 :: chunks64Fuel fuel ((b :: rest).drop 64)

/-- Split a byte list into 64-byte chunks. -/
def chunks64 (l : List Nat) : List (List Nat) := chunks64Fuel l.length l

/-- Flatten 32-bit words into big-endian bytes. -/
def wordsToBytes : List Nat → List Nat
  | [] => []
  | wd :: ws => toBytesBE 4 wd ++ wordsToBytes ws

/-- SHA-256 of a byte list, as a 32-byte list. -/
def sha256 (msg : List Nat) : List Nat :=
  wordsToBytes ((chunks64 (padMessage msg)).foldl processBlock H256)

/-! ## Base58 (the textual rendering `Pubkey::to_string`) -/

/-- Bitcoin base58 alphabet used by `bs58`. -/
def BASE58_ALPHABET : List Char :=
  "123456789ABCDEFGHJKLMNPQRSTUVWXYZabcdefghijkmnopqrstuvwxyz".toList

/-- Base58 digits of `n`, most significant first, with structural fuel (one
unit per digit; `n` units always suffice); empty for 0. -/
def natToBase58Fuel : Nat → Nat → List Char
  | 0, _ => []
  | fuel + 1, n =>
      if n = 0 then []
      else natToBase58Fuel fuel (n / 58) ++ [BASE58_ALPHABET.getD (n % 58) '1']

/-- Base58 digits of `n`, most significant first; empty for 0. -/
def natToBase58 (n : Nat) : List Char := natToBase58Fuel n n

/-- Count of leading zero bytes (each rendered as the character 1). -/
def leadingZeros : List Nat → Nat
  | 0 :: rest => leadingZeros rest + 1
  | _ => 0

/-- Base58 encoding of a byte string, as `bs58` does it: one 1 per leading
zero byte, then the base58 digits of the remaining big-endian number. -/
def base58Encode (bytes : List Nat) : List Char :=
  List.replicate (leadingZeros bytes) '1' ++
    natToBase58 (bytes.foldl (fun acc b => acc * 256 + b) 0)

/-! ## Pubkey and `create_with_seed` (Solana SDK derivation used at
`src/main.rs:169`) -/

/-- A Solana public key: 32 bytes. -/
structure Pubkey where
  bytes : List Nat
deriving DecidableEq

/-- Errors of `Pubkey::create_with_seed`. -/
inductive PubkeyError where
  | MaxSeedLengthExceeded
  | IllegalOwner
deriving DecidableEq

/-- Maximum seed byte length accepted by the derivation scheme. -/
def MAX_SEED_LEN : Nat := 32

/-- The ASCII bytes of the program-derived-address marker string checked by
`create_with_seed` against the tail of the owner key. -/
def PDA_MARKER : List Nat :=
  [80, 114, 111, 103, 114, 97, 109, 68, 101, 114, 105, 118, 101, 100,
   65, 100, 100, 114, 101, 115, 115]

/-- UTF-8 encoding of one character. -/
def utf8EncodeChar (c : Char) : List Nat :=
  let n := c.toNat
  if n < 128 then [n]
  else if n < 2048 then [192 + n / 64, 128 + n % 64]
  else if n < 65536 then [224 + n / 4096, 128 + n / 64 % 64, 128 + n % 64]
  else [240 + n / 262144, 128 + n / 4096 % 64, 128 + n / 64 % 64, 128 + n % 64]

/-- UTF-8 encoding of a string (`str::as_bytes` / `str::len` in the source). -/
def utf8Encode : List Char → List Nat
  | [] => []
  | c :: cs => utf8EncodeChar c ++ utf8Encode cs

/-- Solana `Pubkey::create_with_seed(base, seed, owner)`: reject seeds longer
than `MAX_SEED_LEN` bytes, reject owners ending in the PDA marker, otherwise
hash base ++ seed ++ owner with SHA-256. -/
def create_with_seed (base : Pubkey) (seed : List Char) (owner : Pubkey) :
    Except PubkeyError Pubkey :=
  let seedBytes := utf8Encode seed
  if seedBytes.length > MAX_SEED_LEN then
    .error .MaxSeedLengthExceeded
  else if PDA_MARKER.length ≤ owner.bytes.length ∧
      owner.bytes.drop (owner.bytes.length - PDA_MARKER.length) = PDA_MARKER then
    .error .IllegalOwner
  else
    .ok ⟨sha256 (base.bytes ++ seedBytes ++ owner.bytes)⟩

/-- Textual form of a public key (`Pubkey::to_string`): base58 of its bytes. -/
def pubkeyToString (pk : Pubkey) : List Char := base58Encode pk.bytes

/-- The SPL token program id, `spl_token::id()`, passed as the owner in
`generate_vanity_batch_fast`. -/
def spl_token_id : Pubkey :=
  ⟨[6, 221, 246, 225, 215, 101, 161, 147, 217, 203, 225, 70, 206, 235, 121, 172,
    28, 180, 133, 237, 95, 91, 55, 145, 58, 140, 245, 133, 126, 255, 0, 169]⟩

/-! ## Seed generation (`rand::distr::Alphanumeric`, 32 characters) -/

/-- The 62-character alphabet sampled by `rand::distr::Alphanumeric`. -/
def ALPHANUMERIC : List Char :=
  "ABCDEFGHIJKLMNOPQRSTUVWXYZabcdefghijklmnopqrstuvwxyz0123456789".toList

/-- One `Alphanumeric` sample from one raw random draw `r`. -/
def sampleAlphanumeric (r : Nat) : Char := ALPHANUMERIC.getD (r % 62) 'A'

/-- The 32-character random seed built in each search attempt
(`sample_iter(Alphanumeric).take(32)`); the random source is modelled as a
stream `rng` of raw draws, of which one attempt consumes 32 starting at
offset `off`. -/
def genSeed (rng : Nat → Nat) (off : Nat) : List Char :=
  (List.range 32).map (fun i => sampleAlphanumeric (rng (off + i)))

/-! ## The search batch (`generate_vanity_batch_fast`, `src/main.rs:150-197`) -/

/-- A pool entry: a (seed, derived-address-text) pair. -/
abbrev Entry := List Char × List Char

/-- Body of one search attempt: derive the candidate from the seed with
`create_with_seed(authority, seed, spl_token::id())`; on success, if its
base58 text ends with the suffix, push the (seed, text) pair onto the shared
results buffer; a derivation error leaves the buffer unchanged. -/
def vanityAttempt (authority : Pubkey) (suffix : List Char) (seed : List Char)
    (found : List Entry) : List Entry :=
  match create_with_seed authority seed spl_token_id with
  | .ok pk =>
      let pubkeyStr := pubkeyToString pk
      if suffix.isSuffixOf pubkeyStr then found ++ [(seed, pubkeyStr)] else found
  | .error _ => found

/-- The global attempt ceiling of the search loop. -/
def ATTEMPT_CEILING : Nat := 10000000

/-- The search loop `while found.len() < count && attempts < 10_000_000`,
observed after at most `steps` iterations (the batch is collected after a
fixed wait, so the collection point may interrupt the loop; `steps ≥
ATTEMPT_CEILING` observes the loop's own exit).  Attempt number `a` consumes
random draws `32*a .. 32*a+31` for its seed.  Returns the attempt counter
and the shared results buffer. -/
def searchSteps (authority : Pubkey) (suffix : List Char) (rng : Nat → Nat)
    (count : Nat) : Nat → Nat → List Entry → Nat × List Entry
  | 0, attempts, found => (attempts, found)
  | steps + 1, attempts, found =>
      if found.length < count ∧ attempts < ATTEMPT_CEILING then
        searchSteps authority suffix rng count steps (attempts + 1)
          (vanityAttempt authority suffix (genSeed rng (32 * attempts)) found)
      else (attempts, found)

/-- The batch result `generate_vanity_batch_fast(count)` hands back to the
refill loop: the results buffer of the search loop started from zero
attempts and an empty buffer, collected after `steps` iterations. -/
def generate_vanity_batch_fast (authority : Pubkey) (suffix : List Char)
    (rng : Nat → Nat) (count : Nat) (steps : Nat) : List Entry :=
  (searchSteps authority suffix rng count steps 0 []).2

/-! ## The service (`VanityService`, `src/main.rs:90-147`) -/

/-- The `VanityService` state: the pool vector of (seed, pubkey-text) pairs,
the configured suffix, the target pool size, and the authority key (only its
public part is used by the core). -/
structure VanityService where
  pool : List Entry
  suffix : List Char
  pool_size : Nat
  authority_pubkey : Pubkey
deriving DecidableEq

/-- The service constructed by `VanityService::new`: given the freshly
generated authority identity, the pool starts empty. -/
def VanityService.new (authority : Pubkey) (suffix : List Char)
    (pool_size : Nat) : VanityService :=
  ⟨[], suffix, pool_size, authority⟩

/-- `get_next_vanity`: `pool.pop()`, removing and returning the last element
of the pool vector. -/
def get_next_vanity (s : VanityService) : Option Entry × VanityService :=
  (s.pool.getLast?, ⟨s.pool.dropLast, s.suffix, s.pool_size, s.authority_pubkey⟩)

/-- Current pool cardinality (`pool_size()` accessor). -/
def VanityService.size (s : VanityService) : Nat := s.pool.length

/-- One iteration of the refill loop `generate_pool`: if the pool is at or
above the target size, sleep and re-check (no state change); otherwise run
one search batch for `needed = pool_size - current_size` and extend the pool
with its results. -/
def generate_pool_iter (rng : Nat → Nat) (steps : Nat) (s : VanityService) :
    VanityService :=
  if s.pool.length ≥ s.pool_size then s
  else
    ⟨s.pool ++ generate_vanity_batch_fast s.authority_pubkey s.suffix rng
        (s.pool_size - s.pool.length) steps,
     s.suffix, s.pool_size, s.authority_pubkey⟩

/-- Sequence of `n` `get_next_vanity` calls, collecting the returned options
and threading the service state. -/
def takeN : VanityService → Nat → List (Option Entry) × VanityService
  | s, 0 => ([], s)
  | s, n + 1 =>
      let r := get_next_vanity s
      let rest := takeN r.2 n
      (r.1 :: rest.1, rest.2)

/-- Pool contents reachable from the empty pool under the system's two
mutations: a consumer `take` (pop of the last element) and a refill merge.
The refill loop fires only when it observes a size `n0` below `capacity`,
computes `needed = capacity - n0`, and later extends the pool with one
search batch of that count (collected at an arbitrary point `steps` of the
search loop, with an arbitrary random stream); concurrent takes between the
size check and the merge may shrink the pool to any `p` with
`p.length ≤ n0`. -/
inductive Reachable (authority : Pubkey) (suffix : List Char) (capacity : Nat) :
    List Entry → Prop
  | init : Reachable authority suffix capacity []
  | take (p : List Entry) : Reachable authority suffix capacity p →
      Reachable authority suffix capacity p.dropLast
  | refill (p : List Entry) (n0 : Nat) (rng : Nat → Nat) (steps : Nat) :
      Reachable authority suffix capacity p →
      p.length ≤ n0 →
      n0 < capacity →
      Reachable authority suffix capacity
        (p ++ generate_vanity_batch_fast authority suffix rng
          (capacity - n0) steps)

/-! ## Helper lemmas about the search loop -/

/-- Entries produced by one attempt are either pre-existing or consist of a
seed, its successful derivation, and a suffix match. -/
lemma vanityAttempt_sound (a : Pubkey) (su seed : List Char) (found : List Entry)
    (e : Entry) (he : e ∈ vanityAttempt a su seed found) :
    e ∈ found ∨ ∃ pk, create_with_seed a e.1 spl_token_id = .ok pk ∧
      pubkeyToString pk = e.2 ∧ su.isSuffixOf e.2 = true := by
  unfold vanityAttempt at he
  split at he
  case h_1 pk hcw =>
    dsimp only at he
    split at he
    case isTrue hsuf =>
      rcases List.mem_append.mp he with hl | hr
      · exact Or.inl hl
      · rcases List.mem_singleton.mp hr with rfl
        exact Or.inr ⟨pk, hcw, rfl, hsuf⟩
    case isFalse _ => exact Or.inl he
  case h_2 _ _ => exact Or.inl he

/-- One attempt grows the results buffer by at most one entry. -/
lemma vanityAttempt_length_le (a : Pubkey) (su seed : List Char)
    (found : List Entry) :
    (vanityAttempt a su seed found).length ≤ found.length + 1 := by
  unfold vanityAttempt
  split
  · dsimp only
    split
    · simp
    · omega
  · omega

/-- Entries in the search-loop buffer are either initial or sound. -/
lemma searchSteps_sound (a : Pubkey) (su : List Char) (rng : Nat → Nat)
    (count : Nat) :
    ∀ (steps attempts : Nat) (found : List Entry) (e : Entry),
      e ∈ (searchSteps a su rng count steps attempts found).2 →
      e ∈ found ∨ ∃ pk, create_with_seed a e.1 spl_token_id = .ok pk ∧
        pubkeyToString pk = e.2 ∧ su.isSuffixOf e.2 = true := by
  intro steps
  induction steps with
  | zero => intro attempts found e he; exact Or.inl he
  | succ k ih =>
      intro attempts found e he
      rw [searchSteps] at he
      split at he
      · rcases ih (attempts + 1) (vanityAttempt a su (genSeed rng (32 * attempts)) found) e he with h1 | h2
        · exact vanityAttempt_sound a su _ found e h1
        · exact Or.inr h2
      · exact Or.inl he

/-- The search-loop buffer never exceeds the requested count. -/
lemma searchSteps_length_le (a : Pubkey) (su : List Char) (rng : Nat → Nat)
    (count : Nat) :
    ∀ (steps attempts : Nat) (found : List Entry), found.length ≤ count →
      (searchSteps a su rng count steps attempts found).2.length ≤ count := by
  intro steps
  induction steps with
  | zero => intro attempts found hle; exact hle
  | succ k ih =>
      intro attempts found hle
      rw [searchSteps]
      split
      case isTrue hg =>
        refine ih (attempts + 1) _ ?_
        have := vanityAttempt_length_le a su (genSeed rng (32 * attempts)) found
        omega
      case isFalse _ => exact hle

/-- Every entry in a collected batch is a sound (seed, address) pair. -/
lemma batch_sound (a : Pubkey) (su : List Char) (rng : Nat → Nat)
    (count steps : Nat) (e : Entry)
    (he : e ∈ generate_vanity_batch_fast a su rng count steps) :
    ∃ pk, create_with_seed a e.1 spl_token_id = .ok pk ∧
      pubkeyToString pk = e.2 ∧ su.isSuffixOf e.2 = true := by
  rcases searchSteps_sound a su rng count steps 0 [] e he with h | h
  · cases h
  · exact h

/-- A collected batch has at most `count` entries. -/
lemma batch_length_le (a : Pubkey) (su : List Char) (rng : Nat → Nat)
    (count steps : Nat) :
    (generate_vanity_batch_fast a su rng count steps).length ≤ count :=
  searchSteps_length_le a su rng count steps 0 [] (Nat.zero_le count)

/-- When the loop guard is false the search loop returns immediately. -/
lemma searchSteps_stopped (a : Pubkey) (su : List Char) (rng : Nat → Nat)
    (count steps attempts : Nat) (found : List Entry)
    (h : ¬(found.length < count ∧ attempts < ATTEMPT_CEILING)) :
    searchSteps a su rng count steps attempts found = (attempts, found) := by
  cases steps with
  | zero => rfl
  | succ k => rw [searchSteps, if_neg h]

/-- Fuel beyond `ATTEMPT_CEILING - attempts` iterations never changes the
search loop's result: the loop terminates within the attempt ceiling. -/
lemma searchSteps_fuel_stable (a : Pubkey) (su : List Char) (rng : Nat → Nat)
    (count : Nat) :
    ∀ (j k attempts : Nat) (found : List Entry),
      ATTEMPT_CEILING - attempts ≤ j →
      searchSteps a su rng count (j + k) attempts found =
        searchSteps a su rng count j attempts found := by
  intro j
  induction j with
  | zero =>
      intro k attempts found hj
      have hstop : ¬(found.length < count ∧ attempts < ATTEMPT_CEILING) := by
        intro hc; omega
      rw [searchSteps_stopped a su rng count (0 + k) attempts found hstop,
        searchSteps_stopped a su rng count 0 attempts found hstop]
  | succ j ih =>
      intro k attempts found hj
      by_cases hg : found.length < count ∧ attempts < ATTEMPT_CEILING
      · have hadd : j + 1 + k = (j + k) + 1 := by omega
        rw [hadd, searchSteps, if_pos hg, searchSteps, if_pos hg]
        exact ih k (attempts + 1) _ (by omega)
      · rw [searchSteps_stopped a su rng count (j + 1 + k) attempts found hg,
          searchSteps_stopped a su rng count (j + 1) attempts found hg]

/-- With enough fuel the search loop stops exactly at a full buffer or at
the attempt ceiling. -/
lemma searchSteps_exit (a : Pubkey) (su : List Char) (rng : Nat → Nat)
    (count : Nat) :
    ∀ (steps attempts : Nat) (found : List Entry),
      ATTEMPT_CEILING - attempts ≤ steps → attempts ≤ ATTEMPT_CEILING →
      count ≤ (searchSteps a su rng count steps attempts found).2.length ∨
        (searchSteps a su rng count steps attempts found).1 = ATTEMPT_CEILING := by
  intro steps
  induction steps with
  | zero =>
      intro attempts found h1 h2
      right
      have : attempts = ATTEMPT_CEILING := by omega
      simp [searchSteps, this]
  | succ k ih =>
      intro attempts found h1 h2
      by_cases hg : found.length < count ∧ attempts < ATTEMPT_CEILING
      · rw [searchSteps, if_pos hg]
        exact ih (attempts + 1) _ (by omega) (by omega)
      · rw [searchSteps_stopped a su rng count (k + 1) attempts found hg]
        rcases Nat.lt_or_ge found.length count with hlt | hge
        · right
          have : ¬ attempts < ATTEMPT_CEILING := fun hc => hg ⟨hlt, hc⟩
          omega
        · exact Or.inl hge

/-! ## Claim theorems -/

/-- C1: every entry ever observable in the Pool satisfies the suffix
predicate: for every (seed, address) pair in any pool state reachable from
the empty pool under refill merges and takes, the address is the successful
derivation `create_with_seed(authority, seed, spl_token::id())` rendered in
base58, and its text ends with the configured suffix. -/
theorem pool_suffix_invariant (a : Pubkey) (su : List Char) (c : Nat)
    (p : List Entry) (h : Reachable a su c p) (e : Entry) (he : e ∈ p) :
    ∃ pk, create_with_seed a e.1 spl_token_id = .ok pk ∧
      pubkeyToString pk = e.2 ∧ su.isSuffixOf e.2 = true := by
  revert he
  induction h with
  | init => intro he; cases he
  | take q hr ih => intro he; exact ih ((List.dropLast_sublist q).subset he)
  | refill q n0 rng steps hr hle hlt ih =>
      intro he
      rcases List.mem_append.mp he with h1 | h2
      · exact ih h1
      · exact batch_sound a su rng _ steps e h2

set_option maxRecDepth 1000000 in
/-- Witness for C1: a concrete one-refill pool (empty suffix, all-zero
random stream) whose single entry satisfies the invariant. -/
theorem pool_suffix_invariant_witness :
    ∃ pk, create_with_seed ⟨[]⟩ (genSeed (fun _ => 0) 0) spl_token_id = .ok pk ∧
      pubkeyToString pk =
        pubkeyToString ⟨sha256 (utf8Encode (genSeed (fun _ => 0) 0) ++ spl_token_id.bytes)⟩ ∧
      List.isSuffixOf []
        (pubkeyToString ⟨sha256 (utf8Encode (genSeed (fun _ => 0) 0) ++ spl_token_id.bytes)⟩) = true :=
  pool_suffix_invariant ⟨[]⟩ [] 1 _
    (Reachable.refill [] 0 (fun _ => 0) 1 Reachable.init (Nat.le_refl 0) (by decide))
    (genSeed (fun _ => 0) 0,
      pubkeyToString ⟨sha256 (utf8Encode (genSeed (fun _ => 0) 0) ++ spl_token_id.bytes)⟩)
    (by decide)

/-- C2: address derivation is pure and deterministic — in this embedding
`create_with_seed` is a function of exactly (base, seed, owner), so deriving
twice from the same inputs yields the same result and has no side effects. -/
theorem derivation_deterministic (base : Pubkey) (seed : List Char)
    (owner : Pubkey) :
    create_with_seed base seed owner = create_with_seed base seed owner := rfl

/-- C4: the pool size of every reachable state is bounded by the capacity
(so in particular by capacity plus any burst-slack: each search batch stops
pushing at `needed` entries, so a merge never overshoots the capacity). -/
theorem pool_size_bounded (a : Pubkey) (su : List Char) (c : Nat)
    (p : List Entry) (h : Reachable a su c p) : p.length ≤ c := by
  induction h with
  | init => exact Nat.zero_le c
  | take q hr ih =>
      have hd := q.length_dropLast
      omega
  | refill q n0 rng steps hr hle hlt ih =>
      have hb := batch_length_le a su rng (c - n0) steps
      simp only [List.length_append]
      omega

/-- Witness for C4: the pool after one concrete refill against capacity 1
has at most 1 entry. -/
theorem pool_size_bounded_witness :
    (([] : List Entry) ++
      generate_vanity_batch_fast ⟨[]⟩ [] (fun _ => 0) 1 1).length ≤ 1 :=
  pool_size_bounded ⟨[]⟩ [] 1 _
    (Reachable.refill [] 0 (fun _ => 0) 1 Reachable.init (Nat.le_refl 0) (by decide))

/-- C5: one iteration of the refill loop: at or above the target size it
changes nothing (the loop only sleeps and re-checks); below it, it runs
exactly one search batch for `needed = pool_size - current_size` and extends
the pool with that batch's results. -/
theorem refill_loop_step (rng : Nat → Nat) (steps : Nat) (s : VanityService) :
    (s.pool_size ≤ s.pool.length → generate_pool_iter rng steps s = s) ∧
    (s.pool.length < s.pool_size →
      generate_pool_iter rng steps s =
        ⟨s.pool ++ generate_vanity_batch_fast s.authority_pubkey s.suffix rng
            (s.pool_size - s.pool.length) steps,
          s.suffix, s.pool_size, s.authority_pubkey⟩) := by
  constructor
  · intro hge
    rw [generate_pool_iter, if_pos (by omega : s.pool.length ≥ s.pool_size)]
  · intro hlt
    rw [generate_pool_iter, if_neg (by omega : ¬ s.pool.length ≥ s.pool_size)]

/-- Witness for C5: both branches at concrete states — a full service is
left unchanged; an empty one with capacity 1 gains one batch. -/
theorem refill_loop_step_witness :
    generate_pool_iter (fun _ => 0) 1 ⟨[], [], 0, ⟨[]⟩⟩ = ⟨[], [], 0, ⟨[]⟩⟩ ∧
    generate_pool_iter (fun _ => 0) 1 ⟨[], [], 1, ⟨[]⟩⟩ =
      ⟨[] ++ generate_vanity_batch_fast ⟨[]⟩ [] (fun _ => 0) 1 1, [], 1, ⟨[]⟩⟩ :=
  ⟨(refill_loop_step (fun _ => 0) 1 ⟨[], [], 0, ⟨[]⟩⟩).1 (by decide),
   (refill_loop_step (fun _ => 0) 1 ⟨[], [], 1, ⟨[]⟩⟩).2 (by decide)⟩

/-- C6: the search loop terminates within the attempt ceiling (extra fuel
beyond `ATTEMPT_CEILING` iterations never changes its result), and at its
exit either the results buffer has reached `count` entries or the attempt
counter equals the ceiling of 10,000,000. -/
theorem search_batch_exit (a : Pubkey) (su : List Char) (rng : Nat → Nat)
    (count j : Nat) (hj : ATTEMPT_CEILING ≤ j) :
    searchSteps a su rng count j 0 [] =
      searchSteps a su rng count ATTEMPT_CEILING 0 [] ∧
    (count ≤ (searchSteps a su rng count ATTEMPT_CEILING 0 []).2.length ∨
      (searchSteps a su rng count ATTEMPT_CEILING 0 []).1 = ATTEMPT_CEILING) := by
  constructor
  · have hsplit : j = ATTEMPT_CEILING + (j - ATTEMPT_CEILING) := by omega
    rw [hsplit]
    exact searchSteps_fuel_stable a su rng count ATTEMPT_CEILING
      (j - ATTEMPT_CEILING) 0 [] (by omega)
  · exact searchSteps_exit a su rng count ATTEMPT_CEILING 0 []
      (by omega) (Nat.zero_le _)

/-- Draining a pool of `n` entries with `n` pops returns all entries, last
in first out, and leaves every other service field intact. -/
lemma takeN_drain (su : List Char) (n : Nat) (a : Pubkey) (l : List Entry) :
    takeN ⟨l, su, n, a⟩ l.length = (l.reverse.map some, ⟨[], su, n, a⟩) := by
  induction l using List.reverseRecOn with
  | nil => rfl
  | append_singleton l x ih =>
      have hlen : (l ++ [x]).length = l.length + 1 := by simp
      rw [hlen, takeN]
      simp [get_next_vanity, List.getLast?_concat, List.dropLast_concat, ih,
        List.reverse_append]

/-- In a duplicate-free list the last element does not occur before the
last position. -/
lemma getLast_not_mem_dropLast {α : Type} (l : List α) (hd : l.Nodup)
    (hne : l ≠ []) : l.getLast hne ∉ l.dropLast := by
  intro hmem
  have heq := List.dropLast_append_getLast hne
  rw [← heq] at hd
  rcases List.nodup_append.mp hd with ⟨_, _, hdisj⟩
  exact hdisj hmem (List.mem_singleton.mpr rfl)

/-- C3: `take` (pop) returns `None` on an empty pool and, on a non-empty
pool, removes and returns one entry that was in the pool; draining a pool of
N distinct entries with N pops yields N distinct entries (all of them), after
which the pool is empty and every further pop returns `None`. -/
theorem take_at_most_once (s : VanityService) (hd : s.pool.Nodup) :
    (s.pool = [] → get_next_vanity s = (none, s)) ∧
    (∀ hne : s.pool ≠ [],
      (get_next_vanity s).1 = some (s.pool.getLast hne) ∧
      s.pool.getLast hne ∈ s.pool ∧
      s.pool.getLast hne ∉ (get_next_vanity s).2.pool) ∧
    (takeN s s.pool.length).1 = s.pool.reverse.map some ∧
    (takeN s s.pool.length).1.Nodup ∧
    (takeN s s.pool.length).2.pool = [] ∧
    (get_next_vanity (takeN s s.pool.length).2).1 = none := by
  obtain ⟨l, su, n, a⟩ := s
  dsimp only at hd ⊢
  refine ⟨?_, ?_, ?_, ?_, ?_, ?_⟩
  · intro hl; subst hl; rfl
  · intro hne
    refine ⟨?_, List.getLast_mem hne, ?_⟩
    · show l.getLast? = some (l.getLast hne)
      exact List.getLast?_eq_getLast l hne
    · exact getLast_not_mem_dropLast l hd hne
  · rw [takeN_drain su n a l]
  · rw [takeN_drain su n a l]
    exact (List.nodup_reverse.mpr hd).map (Option.some_injective _)
  · rw [takeN_drain su n a l]
  · rw [takeN_drain su n a l]; rfl

/-- Witness for C3: draining a concrete two-entry pool yields the two
entries newest-first, leaves the pool empty, and a further pop is `None`. -/
theorem take_at_most_once_witness :
    (takeN ⟨[(['a'], ['b']), (['c'], ['d'])], [], 2, ⟨[]⟩⟩ 2).1 =
      [some (['c'], ['d']), some (['a'], ['b'])] ∧
    (takeN ⟨[(['a'], ['b']), (['c'], ['d'])], [], 2, ⟨[]⟩⟩ 2).1.Nodup ∧
    (takeN ⟨[(['a'], ['b']), (['c'], ['d'])], [], 2, ⟨[]⟩⟩ 2).2.pool = [] ∧
    (get_next_vanity (takeN ⟨[(['a'], ['b']), (['c'], ['d'])], [], 2, ⟨[]⟩⟩ 2).2).1 = none := by
  have h := take_at_most_once ⟨[(['a'], ['b']), (['c'], ['d'])], [], 2, ⟨[]⟩⟩ (by decide)
  exact ⟨h.2.2.1, h.2.2.2.1, h.2.2.2.2.1, h.2.2.2.2.2⟩

/-- C7: a failed derivation is an absorbed, attempt-local event: it leaves
the shared results buffer unchanged, and nothing that reaches the buffer
ever carries a derivation error — every collected entry stems from a
successful derivation.  (In the embedding the constructor is total given the
authority identity, so no other failure can propagate out of it.) -/
theorem derivation_errors_absorbed (a : Pubkey) (su seed : List Char)
    (found : List Entry) (err : PubkeyError)
    (herr : create_with_seed a seed spl_token_id = .error err) :
    vanityAttempt a su seed found = found ∧
    ∀ (rng : Nat → Nat) (count steps attempts : Nat) (f0 : List Entry)
      (e : Entry), e ∈ (searchSteps a su rng count steps attempts f0).2 →
      e ∈ f0 ∨ ∃ pk, create_with_seed a e.1 spl_token_id = .ok pk := by
  constructor
  · simp only [vanityAttempt, herr]
  · intro rng count steps attempts f0 e he
    rcases searchSteps_sound a su rng count steps attempts f0 e he with h | ⟨pk, h1, _, _⟩
    · exact Or.inl h
    · exact Or.inr ⟨pk, h1⟩

/-- Witness for C7: a 33-character seed fails the derivation's length check
and the attempt leaves the results buffer unchanged. -/
theorem derivation_errors_absorbed_witness :
    vanityAttempt ⟨[]⟩ [] (List.replicate 33 'a') [] = [] :=
  (derivation_errors_absorbed ⟨[]⟩ [] (List.replicate 33 'a') []
    .MaxSeedLengthExceeded rfl).1

/-- One alphanumeric sample always lands in the 62-character alphabet. -/
lemma sampleAlphanumeric_mem (r : Nat) : sampleAlphanumeric r ∈ ALPHANUMERIC := by
  have h : r % 62 < ALPHANUMERIC.length := by
    have h62 : ALPHANUMERIC.length = 62 := rfl
    rw [h62]
    exact Nat.mod_lt r (by decide)
  rw [sampleAlphanumeric, List.getD_eq_getElem ALPHANUMERIC 'A' h]
  exact List.getElem_mem h

/-- UTF-8 encoding of an ASCII string is one byte per character. -/
lemma utf8Encode_length_of_ascii (s : List Char) (h : ∀ c ∈ s, c.toNat < 128) :
    (utf8Encode s).length = s.length := by
  induction s with
  | nil => rfl
  | cons c cs ih =>
      have hc : c.toNat < 128 := h c (List.mem_cons_self c cs)
      have h1 : (utf8EncodeChar c).length = 1 := by
        simp [utf8EncodeChar, hc]
      rw [utf8Encode, List.length_append, h1,
        ih (fun x hx => h x (List.mem_cons_of_mem c hx))]
      simp [List.length_cons]
      omega

/-- C8: every seed the search produces is exactly 32 characters from the
alphanumeric alphabet, and for every such seed the derivation's error branch
is unreachable: `create_with_seed` succeeds for any base key, returning the
hash of base ++ seed ++ owner bytes. -/
theorem generated_seed_valid (rng : Nat → Nat) (off : Nat) (a : Pubkey) :
    (genSeed rng off).length = 32 ∧
    (∀ c ∈ genSeed rng off, c ∈ ALPHANUMERIC) ∧
    create_with_seed a (genSeed rng off) spl_token_id =
      .ok ⟨sha256 (a.bytes ++ utf8Encode (genSeed rng off) ++ spl_token_id.bytes)⟩ := by
  have hmem : ∀ c ∈ genSeed rng off, c ∈ ALPHANUMERIC := by
    intro c hc
    rw [genSeed] at hc
    rcases List.mem_map.mp hc with ⟨i, _, rfl⟩
    exact sampleAlphanumeric_mem _
  have hascii : ∀ c ∈ genSeed rng off, c.toNat < 128 := by
    have hall : ∀ c ∈ ALPHANUMERIC, c.toNat < 128 := by decide
    exact fun c hc => hall c (hmem c hc)
  have hlen : (genSeed rng off).length = 32 := by
    rw [genSeed]; simp
  have hblen : (utf8Encode (genSeed rng off)).length = 32 := by
    rw [utf8Encode_length_of_ascii _ hascii, hlen]
  refine ⟨hlen, hmem, ?_⟩
  rw [create_with_seed]
  rw [if_neg (by rw [hblen]; decide), if_neg (by decide)]

/-- C9: with capacity 0 the refill loop only ever idles (one loop iteration
is the identity on the service state), every pool state reachable at
capacity 0 is the empty pool, and `take` on it always returns `None`. -/
theorem zero_capacity_idle (a : Pubkey) (su : List Char) (p : List Entry)
    (h : Reachable a su 0 p) :
    p = [] ∧
    (∀ (su2 : List Char) (n2 : Nat) (a2 : Pubkey),
      (get_next_vanity ⟨p, su2, n2, a2⟩).1 = none) ∧
    (∀ (rng : Nat → Nat) (steps : Nat) (su2 : List Char) (a2 : Pubkey),
      generate_pool_iter rng steps ⟨p, su2, 0, a2⟩ = ⟨p, su2, 0, a2⟩) := by
  have hp : p = [] := by
    induction h with
    | init => rfl
    | take q hr ih => rw [ih]; rfl
    | refill q n0 rng steps hr hle hlt ih => exact absurd hlt (Nat.not_lt_zero _)
  subst hp
  refine ⟨rfl, fun su2 n2 a2 => rfl, ?_⟩
  intro rng steps su2 a2
  rw [generate_pool_iter, if_pos (Nat.zero_le _)]

/-- Witness for C9: from the empty pool at capacity 0, `take` is `None` and
one refill-loop iteration changes nothing. -/
theorem zero_capacity_idle_witness :
    (get_next_vanity ⟨[], [], 0, ⟨[]⟩⟩).1 = none ∧
    generate_pool_iter (fun _ => 0) 1 ⟨[], [], 0, ⟨[]⟩⟩ = ⟨[], [], 0, ⟨[]⟩⟩ :=
  ⟨(zero_capacity_idle ⟨[]⟩ [] [] Reachable.init).2.1 [] 0 ⟨[]⟩,
   (zero_capacity_idle ⟨[]⟩ [] [] Reachable.init).2.2 (fun _ => 0) 1 [] ⟨[]⟩⟩

/-- C10: on a non-empty pool, `take` returns the last (most recently
inserted) entry of the pool vector, the new pool is exactly the old one
without that last entry — one element shorter, all other entries unchanged
and in order — and the suffix, capacity, and authority fields are
untouched. -/
theorem take_returns_last (s : VanityService) (hne : s.pool ≠ []) :
    (get_next_vanity s).1 = some (s.pool.getLast hne) ∧
    (get_next_vanity s).2.pool = s.pool.dropLast ∧
    (get_next_vanity s).2.pool.length + 1 = s.pool.length ∧
    (get_next_vanity s).2.pool ++ [s.pool.getLast hne] = s.pool ∧
    (get_next_vanity s).2.suffix = s.suffix ∧
    (get_next_vanity s).2.pool_size = s.pool_size ∧
    (get_next_vanity s).2.authority_pubkey = s.authority_pubkey := by
  refine ⟨List.getLast?_eq_getLast s.pool hne, rfl, ?_,
    List.dropLast_append_getLast hne, rfl, rfl, rfl⟩
  have h1 : (get_next_vanity s).2.pool.length = s.pool.length - 1 :=
    List.length_dropLast s.pool
  have hpos : 0 < s.pool.length := List.length_pos.mpr hne
  omega

/-- Witness for C10: popping a concrete two-entry pool returns the second
(newest) entry and leaves exactly the first. -/
theorem take_returns_last_witness :
    (get_next_vanity ⟨[(['a'], ['b']), (['c'], ['d'])], [], 2, ⟨[]⟩⟩).1 =
      some (['c'], ['d']) ∧
    (get_next_vanity ⟨[(['a'], ['b']), (['c'], ['d'])], [], 2, ⟨[]⟩⟩).2.pool =
      [(['a'], ['b'])] :=
  ⟨(take_returns_last ⟨[(['a'], ['b']), (['c'], ['d'])], [], 2, ⟨[]⟩⟩ (by decide)).1,
   (take_returns_last ⟨[(['a'], ['b']), (['c'], ['d'])], [], 2, ⟨[]⟩⟩ (by decide)).2.1⟩

/-- Witness for C6: the exit property at ceiling fuel, a concrete authority,
suffix, random stream, and a requested count of 3. -/
theorem search_batch_exit_witness :
    searchSteps ⟨[]⟩ [] (fun _ => 0) 3 ATTEMPT_CEILING 0 [] =
      searchSteps ⟨[]⟩ [] (fun _ => 0) 3 ATTEMPT_CEILING 0 [] ∧
    (3 ≤ (searchSteps ⟨[]⟩ [] (fun _ => 0) 3 ATTEMPT_CEILING 0 []).2.length ∨
      (searchSteps ⟨[]⟩ [] (fun _ => 0) 3 ATTEMPT_CEILING 0 []).1 = ATTEMPT_CEILING) :=
  search_batch_exit ⟨[]⟩ [] (fun _ => 0) 3 ATTEMPT_CEILING (Nat.le_refl _)

end OnlyPump
